import Mathlib

/-!
# Verification of the rust-color channel and conversion engine

A shallow embedding of the core of the `rust-color` repository.

Conventions of the embedding:

* Fixed-width unsigned integers (`u8`, `u16`, `u32`, `u64`) are embedded as `ℕ`;
  a Rust truncating conversion `as uN` becomes an explicit `% 2^N`.
* IEEE floating point values are embedded as exact rationals (`ℚ`).  Decimal
  float literals from the source (`255.99`, `1.402`, ...) are embedded as the
  corresponding exact rationals; none of the properties proved below depend on
  ulp-level rounding of those literals.
* A Rust function that can panic is embedded as an `Option`-valued function,
  `none` marking the panic.
* `num::cast::<f64, uN>(x).unwrap()` (the `num` crate's checked conversion)
  returns `none` outside `[0, uN::MAX]` and truncates in range.
-/

namespace RustColor

/-! ## Channel cast engine — `src/channel/cast.rs`

Narrowing unsigned integer casts.  Each Rust impl is `(self >> k) as Target`;
the final `as` keeps the low bits of the shifted value. -/

/-- `impl ChannelFormatCast<u8> for u16`: `(self >> 8) as u8`. -/
def cast_u16_u8 (v : ℕ) : ℕ := (v / 2 ^ 8) % 2 ^ 8

/-- `impl ChannelFormatCast<u8> for u32`: `(self >> 24) as u8`. -/
def cast_u32_u8 (v : ℕ) : ℕ := (v / 2 ^ 24) % 2 ^ 8

/-- `impl ChannelFormatCast<u16> for u32`: `(self >> 16) as u16`. -/
def cast_u32_u16 (v : ℕ) : ℕ := (v / 2 ^ 16) % 2 ^ 16

/-- `impl ChannelFormatCast<u8> for u64`: `(self >> 56) as u8`. -/
def cast_u64_u8 (v : ℕ) : ℕ := (v / 2 ^ 56) % 2 ^ 8

/-- `impl ChannelFormatCast<u16> for u64`: `(self >> 48) as u16`. -/
def cast_u64_u16 (v : ℕ) : ℕ := (v / 2 ^ 48) % 2 ^ 16

/-- `impl ChannelFormatCast<u32> for u64`: the source reads `(self >> 24) as u32`
(a shift by 24, not by the 32-bit width difference). -/
def cast_u64_u32 (v : ℕ) : ℕ := (v / 2 ^ 24) % 2 ^ 32

/-! ## Float → unsigned integer casts — `src/channel/cast.rs`

`f64` values are embedded as rationals.  A Rust `as uN` conversion from a float
truncates toward zero and saturates at the bounds, which for the values below
is `min max ⌊x⌋` for nonnegative `x` and `0` for negative `x`. -/

/-- Rust `x as uN` for a float `x` and target maximum `max`: saturating
truncation toward zero. -/
def f64_as_uint (max : ℕ) (x : ℚ) : ℕ :=
  if x ≤ 0 then 0 else min max (Int.toNat (Int.floor x))

/-- `impl ChannelFormatCast<u8> for f64`: `(self * 255.99_f64).floor() as u8`.
The multiplier is the biased constant `255.99`, slightly above the u8 maximum. -/
def cast_f64_u8 (x : ℚ) : ℕ := f64_as_uint 255 (x * (25599 / 100))

/-- `impl ChannelFormatCast<u16> for f64`: `(self * (0xFFFF_u32 as f64)) as u16`.
The multiplier is exactly `65535`, with no bias. -/
def cast_f64_u16 (x : ℚ) : ℕ := f64_as_uint 65535 (x * 65535)

/-- `impl ChannelFormatCast<u32> for f64`: `(self * (0xFFFFFFFF_u32 as f64)) as u32`.
The multiplier is exactly `4294967295` (`2^32 - 1` is exactly representable in f64). -/
def cast_f64_u32 (x : ℚ) : ℕ := f64_as_uint 4294967295 (x * 4294967295)

/-- `impl ChannelFormatCast<u64> for f64`: `(self * (0xFFFFFFFFFFFFFFFF_u64 as f64)) as u64`.
`2^64 - 1` is not representable in f64 and rounds to `2^64`, so the multiplier
is `18446744073709551616`. -/
def cast_f64_u64 (x : ℚ) : ℕ :=
  f64_as_uint 18446744073709551615 (x * 18446744073709551616)

/-- The float→integer rule exactly as the claim states it, instantiated at the
16-bit target: multiply by a constant slightly above the maximum (the analogue
of the 8-bit case's `255.99`, here `65535.99`) and floor. -/
def claim_cast_f64_u16 (x : ℚ) : ℕ := f64_as_uint 65535 (x * (6553599 / 100))

/-! ## xyY — `src/xyy.rs` -/

/-- `XyY<T>` for a floating channel type: chromaticity channels `x`, `y` and
the free luminance channel `Y`. -/
structure XyY where
  x : ℚ
  y : ℚ
  Y : ℚ

/-- The construction invariant asserted by `XyY::from_channels`:
`0 ≤ x`, `0 ≤ y`, `x + y ≤ 1` (together these give `0 ≤ x + y`). -/
def XyY.valid (c : XyY) : Prop := 0 ≤ c.x ∧ 0 ≤ c.y ∧ c.x + c.y ≤ 1

/-- `XyY::z`: the derived third chromaticity `1 - x - y`. -/
def XyY.z (c : XyY) : ℚ := 1 - c.x - c.y

/-- `XyY::rescale_channels`.  `none` models the panic when `primary` is outside
`[0, 1]`.  `rem_scale = c2 + c3` and `rem = 1 - primary` are inlined. -/
def XyY.rescale_channels (primary c2 c3 : ℚ) : Option (ℚ × ℚ × ℚ) :=
  if 1 < primary ∨ primary < 0 then none
  else if 0 < c2 + c3 then
    some (primary, c2 / (c2 + c3) * (1 - primary), c3 / (c2 + c3) * (1 - primary))
  else
    some (primary, (1 - primary) * (1 / 2), (1 - primary) * (1 / 2))

/-- `XyY::set_x`: `(x, y, _) = rescale_channels(val, self.y(), self.z())`. -/
def XyY.set_x (c : XyY) (val : ℚ) : Option XyY :=
  (XyY.rescale_channels val c.y c.z).map fun p => ⟨p.1, p.2.1, c.Y⟩

/-- `XyY::set_y`: `(y, x, _) = rescale_channels(val, self.x(), self.z())`. -/
def XyY.set_y (c : XyY) (val : ℚ) : Option XyY :=
  (XyY.rescale_channels val c.x c.z).map fun p => ⟨p.2.1, p.1, c.Y⟩

/-- `XyY::set_z`: `(_, x, y) = rescale_channels(val, self.x(), self.y())`. -/
def XyY.set_z (c : XyY) (val : ℚ) : Option XyY :=
  (XyY.rescale_channels val c.x c.y).map fun p => ⟨p.2.1, p.2.2, c.Y⟩

/-! ## Lab — `src/lab.rs` -/

/-- CIE XYZ triple (floating channels as rationals). -/
structure Xyz where
  x : ℚ
  y : ℚ
  z : ℚ

/-- CIE Lab triple. -/
structure Lab where
  L : ℚ
  a : ℚ
  b : ℚ

/-- `Lab::epsilon()`: the exact CIE constant `0.008856451679035631`. -/
def Lab.epsilon : ℚ := 8856451679035631 / 1000000000000000000

/-- `Lab::kappa()`: the exact CIE constant `903.2962962963`. -/
def Lab.kappa : ℚ := 9032962962963 / 10000000000

/-- `Lab::lab_f`.  The cube root is supplied by the external numeric foundation
(spec §6), so it is a parameter of the embedding. -/
def Lab.lab_f (cbrt : ℚ → ℚ) (channel : ℚ) : ℚ :=
  if channel > Lab.epsilon then cbrt channel
  else (Lab.kappa * channel + 16) / 116

/-- `Lab::from_xyz`, parameterized by the white point `wp`. -/
def Lab.from_xyz (cbrt : ℚ → ℚ) (c wp : Xyz) : Lab :=
  ⟨116 * Lab.lab_f cbrt (c.y / wp.y) - 16,
   500 * (Lab.lab_f cbrt (c.x / wp.x) - Lab.lab_f cbrt (c.y / wp.y)),
   200 * (Lab.lab_f cbrt (c.y / wp.y) - Lab.lab_f cbrt (c.z / wp.z))⟩

/-- The forward perceptual transform exactly as the spec's §4.4 formula block
writes it, for comparison with the embedding of the source. -/
def spec_lab_from_xyz (cbrt : ℚ → ℚ) (X Y Z Xw Yw Zw : ℚ) : ℚ × ℚ × ℚ :=
  let f : ℚ → ℚ := fun t =>
    if t > 8856451679035631 / 1000000000000000000 then cbrt t
    else ((9032962962963 / 10000000000) * t + 16) / 116
  (116 * f (Y / Yw) - 16,
   500 * (f (X / Xw) - f (Y / Yw)),
   200 * (f (Y / Yw) - f (Z / Zw)))

/-! ## Channel scalar operations — `src/channel/scalar.rs` -/

/-- Float `PosNormalChannelScalar::normalize`: clamp into `[0, 1]`. -/
def pos_normal_normalize (x : ℚ) : ℚ := if 1 < x then 1 else if x < 0 then 0 else x

/-- Float `NormalChannelScalar::normalize`: clamp into `[-1, 1]`. -/
def normal_normalize (x : ℚ) : ℚ := if 1 < x then 1 else if x < -1 then -1 else x

/-- Float `PosNormalChannelScalar::is_normalized`: `0.0 <= v && v <= 1.0`. -/
def pos_normal_is_normalized (x : ℚ) : Bool := decide (0 ≤ x ∧ x ≤ 1)

/-- `lerp_flat` for float channels: `left * (1 - pos) + right * pos`. -/
def lerp_flat (left right pos : ℚ) : ℚ := left * (1 - pos) + right * pos

/-! ## YCbCr model engine — `src/ycbcr/model.rs` -/

/-- `impl_standard_shift_int!`: `(0, (max >> 1) + 1, (max >> 1) + 1)`. -/
def standard_shift_int (max : ℕ) : ℕ × ℕ × ℕ := (0, max / 2 + 1, max / 2 + 1)

/-- `StandardShift<u8>::get_shift()`. -/
def shift_u8 : ℕ × ℕ × ℕ := standard_shift_int 255

/-- `StandardShift<u16>::get_shift()`. -/
def shift_u16 : ℕ × ℕ × ℕ := standard_shift_int 65535

/-- `StandardShift<u32>::get_shift()`. -/
def shift_u32 : ℕ × ℕ × ℕ := standard_shift_int 4294967295

/-- `impl_standard_shift_float!` (both `f32` and `f64`): `(0.0, 0.0, 0.0)`. -/
def standard_shift_float : ℚ × ℚ × ℚ := (0, 0, 0)

/-- A 3×3 matrix of f64 entries (`linalg::Matrix3`), row-major as in
`Matrix3::new([m00, m01, m02, m10, ...])`. -/
structure Matrix3 where
  m00 : ℚ
  m01 : ℚ
  m02 : ℚ
  m10 : ℚ
  m11 : ℚ
  m12 : ℚ
  m20 : ℚ
  m21 : ℚ
  m22 : ℚ

/-- Modelled from the spec: `linalg::Matrix3::transform_vector` is not under
`src/`; per §4.5 the model engine applies the 3×3 matrix to the channel
triple. -/
def Matrix3.transform_vector (m : Matrix3) (v : ℚ × ℚ × ℚ) : ℚ × ℚ × ℚ :=
  (m.m00 * v.1 + m.m01 * v.2.1 + m.m02 * v.2.2,
   m.m10 * v.1 + m.m11 * v.2.1 + m.m12 * v.2.2,
   m.m20 * v.1 + m.m21 * v.2.1 + m.m22 * v.2.2)

/-- `JpegModel::forward_transform()`. -/
def JpegModel.forward_transform : Matrix3 :=
  ⟨299 / 1000, 587 / 1000, 114 / 1000,
   -168736 / 1000000, -331264 / 1000000, 1 / 2,
   1 / 2, -418688 / 1000000, -81312 / 1000000⟩

/-- `JpegModel::inverse_transform()`. -/
def JpegModel.inverse_transform : Matrix3 :=
  ⟨1, 0, 1402 / 1000,
   1, -3441 / 10000, -7141 / 10000,
   1, 1772 / 1000, 0⟩

/-- A YCbCr model instance for floating channels: its inverse matrix and
per-channel shift (the parts of the `YCbCrModel` trait that `to_rgb` uses). -/
structure YCbCrModelQ where
  inverse_transform : Matrix3
  shift : ℚ × ℚ × ℚ

/-- The JPEG model with `f64` channels: `StandardShift<f64>` is all zero. -/
def jpegModelQ : YCbCrModelQ := ⟨JpegModel.inverse_transform, standard_shift_float⟩

/-! ## RGB and the YCbCr → RGB conversion — `src/ycbcr/bare_ycbcr.rs` -/

/-- Modelled from the spec: the `Rgb` struct (`src/rgb.rs` is not under
`src/`) is a triple of positive-normal channels in declared order
red, green, blue. -/
structure Rgb where
  red : ℚ
  green : ℚ
  blue : ℚ

/-- Modelled from the spec: `Bounded for Rgb` (generated by
`impl_color_bounded!`, not under `src/`) clamps every channel independently
(§4.2); the per-channel clamp is `normalize` from `src/channel/scalar.rs`. -/
def Rgb.normalize (c : Rgb) : Rgb :=
  ⟨pos_normal_normalize c.red, pos_normal_normalize c.green,
   pos_normal_normalize c.blue⟩

/-- Modelled from the spec: `is_normalized` for `Rgb` holds iff every channel
is in bounds (§4.2); the per-channel test is from `src/channel/scalar.rs`. -/
def Rgb.is_normalized (c : Rgb) : Bool :=
  pos_normal_is_normalized c.red && pos_normal_is_normalized c.green &&
    pos_normal_is_normalized c.blue

/-- `OutOfGamutMode` from `src/ycbcr/bare_ycbcr.rs`. -/
inductive OutOfGamutMode where
  | Preserve : OutOfGamutMode
  | Clip : OutOfGamutMode

/-- `BareYCbCr<T>` for a floating channel type. -/
structure BareYCbCr where
  luma : ℚ
  cb : ℚ
  cr : ℚ

/-- `BareYCbCr::to_rgb` for floating channels: the `num::cast` round-trips
through `f64` are the identity, so the result is exactly
`inverse_transform · (channels - shift)`, then the gamut mode is applied. -/
def BareYCbCr.to_rgb (c : BareYCbCr) (model : YCbCrModelQ)
    (mode : OutOfGamutMode) : Rgb :=
  match Matrix3.transform_vector model.inverse_transform
      (c.luma - model.shift.1, c.cb - model.shift.2.1, c.cr - model.shift.2.2) with
  | (r, g, b) =>
    match mode with
    | OutOfGamutMode.Preserve => ⟨r, g, b⟩
    | OutOfGamutMode.Clip => Rgb.normalize ⟨r, g, b⟩

/-- `TryFromColor for Rgb` (`src/ycbcr/ycbcr.rs`): convert with `Preserve` and
return `none` when the result is out of gamut. -/
def Rgb.try_from_color (model : YCbCrModelQ) (c : BareYCbCr) : Option Rgb :=
  if (c.to_rgb model OutOfGamutMode.Preserve).is_normalized
  then some (c.to_rgb model OutOfGamutMode.Preserve) else none

/-- The spec's inverse step for the JPEG model written out directly:
subtract the (zero) shift, then apply the inverse matrix rows
`[1, 0, 1.402; 1, -0.3441, -0.7141; 1, 1.772, 0]`. -/
def spec_jpeg_inverse_rgb (c : BareYCbCr) : Rgb :=
  ⟨c.luma + (1402 / 1000) * c.cr,
   c.luma - (3441 / 10000) * c.cb - (7141 / 10000) * c.cr,
   c.luma + (1772 / 1000) * c.cb⟩

/-! ## The integer-channel conversion path (C6) -/

/-- `num::cast::<f64, u8>(x)`: `some` (truncating toward zero) iff
`0 ≤ x ≤ 255`, `none` otherwise — the `.unwrap()` on `none` is the panic. -/
def num_cast_f64_u8 (x : ℚ) : Option ℕ :=
  if 0 ≤ x ∧ x ≤ 255 then some (Int.toNat (Int.floor x)) else none

/-- `BareYCbCr<u8>`. -/
structure BareYCbCrU8 where
  luma : ℕ
  cb : ℕ
  cr : ℕ

/-- The shifted inverse transform inside `BareYCbCr::<u8>::to_rgb` with the
JPEG model: channels are cast to `f64`, the shift `(0, 128, 128)` is
subtracted, and the inverse matrix is applied. -/
def u8_inverse_shifted (c : BareYCbCrU8) : ℚ × ℚ × ℚ :=
  Matrix3.transform_vector JpegModel.inverse_transform
    ((c.luma : ℚ) - (shift_u8.1 : ℚ), (c.cb : ℚ) - (shift_u8.2.1 : ℚ),
     (c.cr : ℚ) - (shift_u8.2.2 : ℚ))

/-- `BareYCbCr::<u8>::to_rgb`: the three transform results are
`num::cast(..).unwrap()`-ed to `u8` *before* the gamut mode is consulted;
`none` models that panic (the `unwrap`s are sequenced as an `Option` chain).
For integer channels `normalize` is the identity (`src/channel/scalar.rs`),
so both gamut modes yield the same triple. -/
def BareYCbCrU8.to_rgb (c : BareYCbCrU8) (mode : OutOfGamutMode) :
    Option (ℕ × ℕ × ℕ) :=
  (num_cast_f64_u8 (u8_inverse_shifted c).1).bind fun r8 =>
  (num_cast_f64_u8 (u8_inverse_shifted c).2.1).bind fun g8 =>
  (num_cast_f64_u8 (u8_inverse_shifted c).2.2).bind fun b8 =>
  some (match mode with
        | OutOfGamutMode.Preserve => (r8, g8, b8)
        | OutOfGamutMode.Clip => (r8, g8, b8))

/-- `TryFromColor for Rgb` at `u8` channels: `to_rgb(Preserve)` — whose panic
propagates — then the gamut test, which always passes since integer channels
are always `is_normalized` (`src/channel/scalar.rs`). -/
def try_from_color_u8 (c : BareYCbCrU8) : Option (ℕ × ℕ × ℕ) :=
  (BareYCbCrU8.to_rgb c OutOfGamutMode.Preserve).bind fun out => some out

/-! ## Invert (C8) and the model-carrying `YCbCr` (C9, C10) -/

/-- Modelled from the spec: the channel `Invert` impls (generated by
`impl_macros.rs`, not under `src/`) map `v` to `min + max - v`.  For the u8
positive-normal and normal channels, `min = u8::MIN = 0`, `max = 255`. -/
def invert_chan_u8 (v : ℕ) : ℕ := 0 + 255 - v

/-- Modelled from the spec: float positive-normal channel invert,
`min + max - v` with bounds `[0, 1]`. -/
def invert_pos_f (v : ℚ) : ℚ := 0 + 1 - v

/-- Modelled from the spec: float normal (symmetric) channel invert,
`min + max - v` with bounds `[-1, 1]`. -/
def invert_norm_f (v : ℚ) : ℚ := -1 + 1 - v

/-- `Invert for BareYCbCr` at `u8` (`impl_color_invert!`): invert every
channel. -/
def BareYCbCrU8.invert (c : BareYCbCrU8) : BareYCbCrU8 :=
  ⟨invert_chan_u8 c.luma, invert_chan_u8 c.cb, invert_chan_u8 c.cr⟩

/-- `Invert for BareYCbCr` at a floating channel type. -/
def BareYCbCr.invert (c : BareYCbCr) : BareYCbCr :=
  ⟨invert_pos_f c.luma, invert_norm_f c.cb, invert_norm_f c.cr⟩

/-- `Alpha<T, InnerColor>`: an inner color plus one positive-normal alpha
channel (`src/alpha.rs`). -/
structure Alpha (C : Type) where
  color : C
  alpha : ℚ

/-- `Invert for Alpha` (`src/alpha.rs`): invert the inner color and the alpha
channel independently; the inner invert is a parameter as in the generic
impl. -/
def Alpha.invert {C : Type} (inner_invert : C → C) (a : Alpha C) : Alpha C :=
  ⟨inner_invert a.color, invert_pos_f a.alpha⟩

/-- `Bounded for BareYCbCr` (`impl_color_bounded!`, per spec §4.2): clamp each
channel with its own scalar clamp from `src/channel/scalar.rs`. -/
def BareYCbCr.normalize (c : BareYCbCr) : BareYCbCr :=
  ⟨pos_normal_normalize c.luma, normal_normalize c.cb, normal_normalize c.cr⟩

/-- `Lerp for BareYCbCr` (`impl_color_lerp_square!`, per spec §4.2):
componentwise `lerp_flat` from `src/channel/scalar.rs`. -/
def BareYCbCr.lerp (a b : BareYCbCr) (pos : ℚ) : BareYCbCr :=
  ⟨lerp_flat a.luma b.luma pos, lerp_flat a.cb b.cb pos,
   lerp_flat a.cr b.cr pos⟩

/-- `YCbCr<T, M>` (`src/ycbcr/ycbcr.rs`): a bare color plus its model. -/
structure YCbCrC (M : Type) where
  bare : BareYCbCr
  model : M

/-- `Invert for YCbCr`: `from_color_and_model(self.ycbcr.invert(), self.model)`. -/
def YCbCrC.invert {M : Type} (c : YCbCrC M) : YCbCrC M :=
  ⟨c.bare.invert, c.model⟩

/-- `Bounded for YCbCr`: `from_color_and_model(self.ycbcr.normalize(), self.model)`. -/
def YCbCrC.normalize {M : Type} (c : YCbCrC M) : YCbCrC M :=
  ⟨c.bare.normalize, c.model⟩

/-- `Lerp for YCbCr`:
`from_color_and_model(self.ycbcr.lerp(&other.ycbcr, pos), self.model.clone())`. -/
def YCbCrC.lerp {M : Type} (a b : YCbCrC M) (pos : ℚ) : YCbCrC M :=
  ⟨a.bare.lerp b.bare pos, a.model⟩

/-- `Flatten for YCbCr::from_slice` (`src/ycbcr/ycbcr.rs`):
`from_channels(vals[0], vals[1], vals[2])` for a unit model; an out-of-bounds
index is a panic, modelled as `none`. -/
def YCbCr.from_slice (vals : List ℚ) : Option (YCbCrC Unit) :=
  match vals[0]?, vals[1]?, vals[2]? with
  | some y, some cb, some cr => some ⟨⟨y, cb, cr⟩, ()⟩
  | _, _, _ => none

/-- `Flatten for Alpha::from_slice` (`src/alpha.rs`): build the inner color
from the whole slice, then read the alpha from index
`num_channels - 1`; an out-of-bounds index is a panic, modelled as `none`. -/
def Alpha.from_slice {C : Type} (inner_from_slice : List ℚ → Option C)
    (num_channels : ℕ) (vals : List ℚ) : Option (Alpha C) :=
  match inner_from_slice vals, vals[num_channels - 1]? with
  | some c, some a => some ⟨c, a⟩
  | _, _ => none

/-! ## Theorems -/

/-- If `v < a * b` then the truncation after the shift is a no-op. -/
theorem div_mod_self_of_lt {a b v : ℕ} (h : v < a * b) : v / a % b = v / a :=
  Nat.mod_eq_of_lt (Nat.div_lt_of_lt_mul h)

/-- Shifting a `j + w`-bit value right by `j` bits leaves a `w`-bit value. -/
theorem shift_trunc_eq (j w v : ℕ) (h : v < 2 ^ (j + w)) :
    v / 2 ^ j % 2 ^ w = v / 2 ^ j :=
  div_mod_self_of_lt (by rwa [pow_add] at h)

/-- **C1**: Of the six narrowing unsigned casts, five (`u16→u8`, `u32→u8`,
`u32→u16`, `u64→u8`, `u64→u16`) return the most-significant bits of the source,
i.e. the source right-shifted by the bit-width difference — but `u64→u32`
shifts by 24 instead of 32, so the claim fails there: at `v = 2^56` the code
returns `0` while the most-significant 32 bits are `2^24 = 16777216`.  The
source's own pattern (shift by the width difference in every other impl) and
the spec show the intent; `(self >> 24) as u32` is a slip. -/
theorem c1_narrowing_casts_msb_bits :
    (∀ v : ℕ, cast_u16_u8 (v % 2 ^ 16) = v % 2 ^ 16 / 2 ^ 8) ∧
    (∀ v : ℕ, cast_u32_u8 (v % 2 ^ 32) = v % 2 ^ 32 / 2 ^ 24) ∧
    (∀ v : ℕ, cast_u32_u16 (v % 2 ^ 32) = v % 2 ^ 32 / 2 ^ 16) ∧
    (∀ v : ℕ, cast_u64_u8 (v % 2 ^ 64) = v % 2 ^ 64 / 2 ^ 56) ∧
    (∀ v : ℕ, cast_u64_u16 (v % 2 ^ 64) = v % 2 ^ 64 / 2 ^ 48) ∧
    cast_u64_u32 (2 ^ 56) = 0 ∧ 2 ^ 56 / 2 ^ 32 = 16777216 := by
  refine ⟨fun v => shift_trunc_eq 8 8 _ ?_, fun v => shift_trunc_eq 24 8 _ ?_,
    fun v => shift_trunc_eq 16 16 _ ?_, fun v => shift_trunc_eq 56 8 _ ?_,
    fun v => shift_trunc_eq 48 16 _ ?_, by decide, by decide⟩ <;>
  · refine lt_of_lt_of_le (Nat.mod_lt v ?_) ?_ <;> norm_num

/-- **C3** (counterexample): the claim's rule — multiply by a constant slightly
above the target maximum and floor — disagrees with the code for the 16-bit
target.  At `x = 1048575/1048576` (an input very close to `1.0`) the code
multiplies by exactly `65535` and returns `65534`, under-shooting the maximum,
while the claim's biased rule returns `65535`. -/
theorem c3_biased_constant_counterexample :
    cast_f64_u16 (1048575 / 1048576) = 65534 ∧
    claim_cast_f64_u16 (1048575 / 1048576) = 65535 := by
  have h1 : Int.floor ((1048575 / 1048576 : ℚ) * 65535) = 65534 := by
    rw [Int.floor_eq_iff]
    constructor <;> norm_num
  have h2 : Int.floor ((1048575 / 1048576 : ℚ) * (6553599 / 100)) = 65535 := by
    rw [Int.floor_eq_iff]
    constructor <;> norm_num
  unfold cast_f64_u16 claim_cast_f64_u16 f64_as_uint
  rw [if_neg (by norm_num), if_neg (by norm_num), h1, h2]
  norm_num
  rfl

/-- **C3** (amended): only the 8-bit target uses the biased constant `255.99`
(so every input in `[255/255.99, 1]` maps to the maximum `255`); the 16-, 32-
and 64-bit targets multiply by the float value of the target maximum itself —
`65535`, `4294967295`, and `18446744073709551616` (the f64 rounding of
`2^64 - 1`) — and truncate, with no bias, so inputs very close to `1.0` can
under-shoot the maximum there. -/
theorem c3_float_to_uint_casts_amended :
    (∀ x : ℚ, 25500 / 25599 ≤ x → x ≤ 1 → cast_f64_u8 x = 255) ∧
    (∀ x : ℚ, 0 ≤ x → x ≤ 1 →
      cast_f64_u8 x = Int.toNat (Int.floor (x * (25599 / 100)))) ∧
    (∀ x : ℚ, 0 ≤ x → x ≤ 1 →
      cast_f64_u16 x = Int.toNat (Int.floor (x * 65535))) ∧
    (∀ x : ℚ, 0 ≤ x → x ≤ 1 →
      cast_f64_u32 x = Int.toNat (Int.floor (x * 4294967295))) ∧
    (∀ x : ℚ, 0 ≤ x → x ≤ 1 →
      cast_f64_u64 x =
        min 18446744073709551615
          (Int.toNat (Int.floor (x * 18446744073709551616)))) ∧
    cast_f64_u16 (1048575 / 1048576) = 65534 := by
  have key : ∀ (m : ℕ) (y : ℚ), 0 ≤ y → Int.floor y ≤ (m : ℤ) →
      f64_as_uint m y = Int.toNat (Int.floor y) := by
    intro m y hy hfl
    unfold f64_as_uint
    rcases eq_or_lt_of_le hy with hzero | hpos
    · rw [if_pos (le_of_eq hzero.symm), ← hzero]
      norm_num
    · rw [if_neg (not_le.mpr hpos)]
      exact min_eq_right ((Int.toNat_le_toNat hfl).trans (by simp))
  refine ⟨?_, ?_, ?_, ?_, ?_, ?_⟩
  · intro x hlo hhi
    have hfl : Int.floor (x * (25599 / 100 : ℚ)) = 255 := by
      rw [Int.floor_eq_iff]
      constructor <;> push_cast <;> nlinarith
    unfold cast_f64_u8
    rw [key 255 _ (by nlinarith) (by rw [hfl]; norm_num), hfl]
    rfl
  · intro x hx hhi
    have hc : Int.floor ((25599 : ℚ) / 100) = 255 := by
      rw [Int.floor_eq_iff]
      constructor <;> norm_num
    have hle : Int.floor (x * (25599 / 100 : ℚ)) ≤ (255 : ℤ) :=
      (Int.floor_mono (by nlinarith)).trans (le_of_eq hc)
    unfold cast_f64_u8
    exact key 255 _ (mul_nonneg hx (by norm_num)) hle
  · intro x hx hhi
    have hc : Int.floor ((65535 : ℚ)) = 65535 := by
      rw [Int.floor_eq_iff]
      constructor <;> norm_num
    have hle : Int.floor (x * (65535 : ℚ)) ≤ (65535 : ℤ) :=
      (Int.floor_mono (by nlinarith)).trans (le_of_eq hc)
    unfold cast_f64_u16
    exact key 65535 _ (mul_nonneg hx (by norm_num)) hle
  · intro x hx hhi
    have hc : Int.floor ((4294967295 : ℚ)) = 4294967295 := by
      rw [Int.floor_eq_iff]
      constructor <;> norm_num
    have hle : Int.floor (x * (4294967295 : ℚ)) ≤ (4294967295 : ℤ) :=
      (Int.floor_mono (by nlinarith)).trans (le_of_eq hc)
    unfold cast_f64_u32
    exact key 4294967295 _ (mul_nonneg hx (by norm_num)) hle
  · intro x hx hhi
    unfold cast_f64_u64 f64_as_uint
    rcases eq_or_lt_of_le (mul_nonneg hx (by norm_num :
        (0:ℚ) ≤ 18446744073709551616)) with hzero | hpos
    · rw [if_pos (le_of_eq hzero.symm), ← hzero]
      norm_num
    · rw [if_neg (not_le.mpr hpos)]
  · have h1 : Int.floor ((1048575 / 1048576 : ℚ) * 65535) = 65534 := by
      rw [Int.floor_eq_iff]
      constructor <;> norm_num
    unfold cast_f64_u16 f64_as_uint
    rw [if_neg (by norm_num), h1]
    norm_num
    rfl

/-- **C3** (witness): the amended theorem at concrete inputs. -/
theorem c3_float_to_uint_casts_amended_witness :
    cast_f64_u8 1 = 255 ∧ cast_f64_u8 (1 / 2) = 127 ∧
    cast_f64_u16 (1 / 2) = Int.toNat (Int.floor ((1 / 2 : ℚ) * 65535)) ∧
    cast_f64_u32 (1 / 2) = Int.toNat (Int.floor ((1 / 2 : ℚ) * 4294967295)) ∧
    cast_f64_u64 1 =
      min 18446744073709551615
        (Int.toNat (Int.floor ((1 : ℚ) * 18446744073709551616))) := by
  refine ⟨c3_float_to_uint_casts_amended.1 1 (by norm_num) (by norm_num), ?_,
    c3_float_to_uint_casts_amended.2.2.1 (1 / 2) (by norm_num) (by norm_num),
    c3_float_to_uint_casts_amended.2.2.2.1 (1 / 2) (by norm_num) (by norm_num),
    c3_float_to_uint_casts_amended.2.2.2.2.1 1 (by norm_num) (by norm_num)⟩
  have h := c3_float_to_uint_casts_amended.2.1 (1 / 2) (by norm_num) (by norm_num)
  have hfl : Int.floor ((1 / 2 : ℚ) * (25599 / 100)) = 127 := by
    rw [Int.floor_eq_iff]
    constructor <;> norm_num
  rw [h, hfl]
  rfl

/-- `rescale_channels` with nonnegative secondary channels and an in-range
primary succeeds, keeps the primary, returns nonnegative rescaled channels,
and the two rescaled channels sum exactly to `1 - primary`. -/
theorem rescale_channels_sound (primary c2 c3 : ℚ) (h2 : 0 ≤ c2) (h3 : 0 ≤ c3)
    (h0 : 0 ≤ primary) (h1 : primary ≤ 1) :
    ∃ q r, XyY.rescale_channels primary c2 c3 = some (primary, q, r) ∧
      0 ≤ q ∧ 0 ≤ r ∧ q + r = 1 - primary := by
  unfold XyY.rescale_channels
  rw [if_neg (by push_neg; exact ⟨h1, h0⟩)]
  by_cases hrs : 0 < c2 + c3
  · rw [if_pos hrs]
    refine ⟨_, _, rfl, ?_, ?_, ?_⟩
    · exact mul_nonneg (div_nonneg h2 hrs.le) (by linarith)
    · exact mul_nonneg (div_nonneg h3 hrs.le) (by linarith)
    · field_simp
      ring
  · rw [if_neg hrs]
    exact ⟨_, _, rfl, by linarith, by linarith, by ring⟩

/-- **C2** (counterexample): `set_x` does not preserve the sum `x + y`.
Starting from the valid color `xyY(0.4, 0.3, 0.4)` (the repository's own
`test_set_channels` fixture), `set_x(0.6)` rescales `y` to `0.2`, so `x + y`
moves from `0.7` to `0.8` — a change of `0.1`, far beyond any floating
epsilon. -/
theorem c2_sum_not_preserved_counterexample :
    XyY.set_x ⟨2/5, 3/10, 2/5⟩ (3/5) = some ⟨3/5, 1/5, 2/5⟩ ∧
    ¬ |((3/5 : ℚ) + 1/5) - (2/5 + 3/10)| ≤ 1/1000000 := by
  constructor
  · unfold XyY.set_x XyY.rescale_channels XyY.z
    norm_num
  · intro h
    rw [show ((3/5 : ℚ) + 1/5) - (2/5 + 3/10) = 1/10 by norm_num,
      abs_of_nonneg (by norm_num)] at h
    norm_num at h

/-- **C2** (amended): what every channel setter actually preserves is the
construction invariant `0 ≤ x`, `0 ≤ y`, `x + y ≤ 1` — equivalently the total
sum `x + y + z = 1` with `z` re-derived — by rescaling the two non-target
channels to fill exactly `1 - value`; the pre-set value of `x + y` itself is
not preserved. -/
theorem c2_setters_preserve_invariant :
    ∀ (c : XyY) (val : ℚ), c.valid → 0 ≤ val → val ≤ 1 →
      (∃ c1, c.set_x val = some c1 ∧ c1.valid ∧ c1.x + c1.y + c1.z = 1) ∧
      (∃ c2, c.set_y val = some c2 ∧ c2.valid ∧ c2.x + c2.y + c2.z = 1) ∧
      (∃ c3, c.set_z val = some c3 ∧ c3.valid ∧ c3.x + c3.y + c3.z = 1) := by
  rintro ⟨x, y, Y⟩ val ⟨hx, hy, hsum⟩ h0 h1
  have hz : 0 ≤ XyY.z ⟨x, y, Y⟩ := by
    simp only [XyY.z]
    linarith
  refine ⟨?_, ?_, ?_⟩
  · obtain ⟨q, r, heq, hq, hr, hqr⟩ :=
      rescale_channels_sound val y (XyY.z ⟨x, y, Y⟩) hy hz h0 h1
    refine ⟨⟨val, q, Y⟩, ?_, ⟨h0, hq, by linarith⟩, by simp only [XyY.z]; ring⟩
    simp [XyY.set_x, heq]
  · obtain ⟨q, r, heq, hq, hr, hqr⟩ :=
      rescale_channels_sound val x (XyY.z ⟨x, y, Y⟩) hx hz h0 h1
    refine ⟨⟨q, val, Y⟩, ?_, ⟨hq, h0, by linarith⟩, by simp only [XyY.z]; ring⟩
    simp [XyY.set_y, heq]
  · obtain ⟨q, r, heq, hq, hr, hqr⟩ :=
      rescale_channels_sound val x y hx hy h0 h1
    refine ⟨⟨q, r, Y⟩, ?_, ⟨hq, hr, by linarith⟩, by simp only [XyY.z]; ring⟩
    simp [XyY.set_z, heq]

/-- **C2** (witness): the amended setter theorem at the concrete color
`xyY(0.4, 0.3, 0.4)` and setter argument `0.6`. -/
theorem c2_setters_preserve_invariant_witness :
    XyY.valid ⟨2/5, 3/10, 2/5⟩ ∧ (0 : ℚ) ≤ 3/5 ∧ (3/5 : ℚ) ≤ 1 ∧
    (∃ c1, XyY.set_x ⟨2/5, 3/10, 2/5⟩ (3/5) = some c1 ∧ c1.valid ∧
      c1.x + c1.y + c1.z = 1) := by
  have hv : XyY.valid ⟨2/5, 3/10, 2/5⟩ := by
    constructor <;> norm_num
  exact ⟨hv, by norm_num, by norm_num,
    (c2_setters_preserve_invariant ⟨2/5, 3/10, 2/5⟩ (3/5) hv (by norm_num)
      (by norm_num)).1⟩

/-- **C5**: `Lab::from_xyz` computes exactly the spec's forward transform —
`L = 116·f(Y/Yw) − 16`, `a = 500·(f(X/Xw) − f(Y/Yw))`,
`b = 200·(f(Y/Yw) − f(Z/Zw))` with `f(t) = cbrt(t)` for `t > ε` and
`(κ·t + 16)/116` otherwise — using exactly
`ε = 0.008856451679035631` and `κ = 903.2962962963`. -/
theorem c5_lab_from_xyz_formula :
    ∀ (cbrt : ℚ → ℚ) (c wp : Xyz),
      ((Lab.from_xyz cbrt c wp).L, (Lab.from_xyz cbrt c wp).a,
        (Lab.from_xyz cbrt c wp).b) =
        spec_lab_from_xyz cbrt c.x c.y c.z wp.x wp.y wp.z ∧
      Lab.epsilon = 8856451679035631 / 1000000000000000000 ∧
      Lab.kappa = 9032962962963 / 10000000000 := by
  intro cbrt c wp
  refine ⟨?_, rfl, rfl⟩
  simp only [Lab.from_xyz, spec_lab_from_xyz, Lab.lab_f, Lab.epsilon, Lab.kappa]

/-- **C7** (counterexample): the additive shift is not half-range on every
channel for unsigned integer representations: the u8 shift tuple is
`(0, 128, 128)`, so the luma component is `0`, not `(255 >> 1) + 1 = 128`. -/
theorem c7_shift_counterexample :
    shift_u8 = (0, 128, 128) ∧ shift_u8.1 ≠ 255 / 2 + 1 := by
  constructor <;> decide

/-- **C7** (amended): for floating-point channel representations the shift is
zero on every channel; for unsigned integer representations the shift is zero
on the luma channel and half-range (`(max >> 1) + 1`) on the two chroma
channels: `(0, 128, 128)` for u8, `(0, 32768, 32768)` for u16,
`(0, 2147483648, 2147483648)` for u32. -/
theorem c7_shift_amended :
    shift_u8 = (0, 255 / 2 + 1, 255 / 2 + 1) ∧
    shift_u16 = (0, 65535 / 2 + 1, 65535 / 2 + 1) ∧
    shift_u32 = (0, 4294967295 / 2 + 1, 4294967295 / 2 + 1) ∧
    shift_u16 = (0, 32768, 32768) ∧
    shift_u32 = (0, 2147483648, 2147483648) ∧
    standard_shift_float = (0, 0, 0) := by
  refine ⟨by decide, by decide, by decide, by decide, by decide, rfl⟩

/-- **C8**: `invert(v) = min + max - v` on every bounded channel, and invert
is an involution — exactly for integer channels (u8: `255 - v`), and exactly
(hence within `1e-6`) for floating channels in the rational embedding; this
holds componentwise for `BareYCbCr` and for the `Alpha` decorator, which
inverts the inner color and the alpha channel independently. -/
theorem c8_invert_involution :
    (∀ v : ℕ, invert_chan_u8 (invert_chan_u8 (v % 256)) = v % 256) ∧
    (∀ a b c : ℕ,
      BareYCbCrU8.invert (BareYCbCrU8.invert ⟨a % 256, b % 256, c % 256⟩) =
        ⟨a % 256, b % 256, c % 256⟩) ∧
    (∀ c : BareYCbCr, c.invert.invert = c) ∧
    (∀ x : Alpha BareYCbCr,
      Alpha.invert BareYCbCr.invert (Alpha.invert BareYCbCr.invert x) = x) := by
  refine ⟨?_, ?_, ?_, ?_⟩
  · intro v
    unfold invert_chan_u8
    omega
  · intro a b c
    simp only [BareYCbCrU8.invert, invert_chan_u8, BareYCbCrU8.mk.injEq]
    refine ⟨?_, ?_, ?_⟩ <;> omega
  · rintro ⟨l, cb, cr⟩
    simp only [BareYCbCr.invert, invert_pos_f, invert_norm_f,
      BareYCbCr.mk.injEq]
    refine ⟨?_, ?_, ?_⟩ <;> ring
  · rintro ⟨⟨l, cb, cr⟩, al⟩
    simp only [Alpha.invert, BareYCbCr.invert, invert_pos_f, invert_norm_f,
      Alpha.mk.injEq, BareYCbCr.mk.injEq]
    refine ⟨⟨?_, ?_, ?_⟩, ?_⟩ <;> ring

/-- **C9**: `from_slice` on a slice shorter than the channel count is a panic
(modelled by `none`), never a recoverable value and never a constructed color:
for `YCbCr` (3 channels) any slice of length `< 3`, and for `Alpha<YCbCr>`
(4 channels) any slice of length `< 4`. -/
theorem c9_from_slice_short_slice_panics :
    (∀ vals : List ℚ, vals.length < 3 → YCbCr.from_slice vals = none) ∧
    (∀ vals : List ℚ, vals.length < 4 →
      Alpha.from_slice YCbCr.from_slice 4 vals = none) := by
  constructor
  · intro vals h
    match vals with
    | [] => rfl
    | [_] => rfl
    | [_, _] => rfl
    | _ :: _ :: _ :: _ =>
      simp at h
      omega
  · intro vals h
    match vals with
    | [] => rfl
    | [_] => rfl
    | [_, _] => rfl
    | [_, _, _] => rfl
    | _ :: _ :: _ :: _ :: _ =>
      simp at h
      omega

/-- **C9** (witness): a length-1 slice for `YCbCr` and a length-3 slice for
`Alpha<YCbCr>`. -/
theorem c9_from_slice_short_slice_panics_witness :
    ([(1 : ℚ)].length < 3) ∧ YCbCr.from_slice [(1 : ℚ)] = none ∧
    ([(1 : ℚ), 0, 0].length < 4) ∧
    Alpha.from_slice YCbCr.from_slice 4 [(1 : ℚ), 0, 0] = none :=
  ⟨by simp, c9_from_slice_short_slice_panics.1 [(1 : ℚ)] (by simp),
   by simp, c9_from_slice_short_slice_panics.2 [(1 : ℚ), 0, 0] (by simp)⟩

/-- **C4**: with floating channels and the JPEG model, `to_rgb(Preserve)`
returns exactly the inverse-transform result (possibly out of range),
`to_rgb(Clip)` returns the same result with every channel clamped into
`[0, 1]`, and `try_from_color` returns `some` exactly when the `Preserve`
result has every channel in bounds; concretely, `YCbCr(1.0, 1.0, 1.0)` under
`Clip` yields `RGB(1.0, 0.0, 1.0)` and the try-conversion yields `none`. -/
theorem c4_gamut_policy :
    (∀ c : BareYCbCr,
      c.to_rgb jpegModelQ OutOfGamutMode.Preserve = spec_jpeg_inverse_rgb c) ∧
    (∀ c : BareYCbCr,
      c.to_rgb jpegModelQ OutOfGamutMode.Clip
        = (c.to_rgb jpegModelQ OutOfGamutMode.Preserve).normalize) ∧
    (∀ c : BareYCbCr,
      Rgb.try_from_color jpegModelQ c =
        if (c.to_rgb jpegModelQ OutOfGamutMode.Preserve).is_normalized
        then some (c.to_rgb jpegModelQ OutOfGamutMode.Preserve) else none) ∧
    BareYCbCr.to_rgb ⟨1, 1, 1⟩ jpegModelQ OutOfGamutMode.Clip = ⟨1, 0, 1⟩ ∧
    Rgb.try_from_color jpegModelQ ⟨1, 1, 1⟩ = none := by
  refine ⟨?_, ?_, fun c => rfl, ?_, ?_⟩
  · intro c
    simp only [BareYCbCr.to_rgb, jpegModelQ, JpegModel.inverse_transform,
      standard_shift_float, Matrix3.transform_vector, spec_jpeg_inverse_rgb,
      Rgb.mk.injEq]
    refine ⟨?_, ?_, ?_⟩ <;> ring
  · intro c
    rfl
  · simp only [BareYCbCr.to_rgb, jpegModelQ, JpegModel.inverse_transform,
      standard_shift_float, Matrix3.transform_vector, Rgb.normalize,
      pos_normal_normalize, Rgb.mk.injEq]
    norm_num
  · simp only [Rgb.try_from_color, BareYCbCr.to_rgb, jpegModelQ,
      JpegModel.inverse_transform, standard_shift_float,
      Matrix3.transform_vector, Rgb.is_normalized, pos_normal_is_normalized]
    norm_num

/-- **C6**: with u8 channels, the inverse transform result is `unwrap`-cast to
the integer type *before* the gamut policy is consulted, so a color whose
inverse RGB has a negative component panics even under `Preserve` (and under
`Clip`), and `try_from_color` panics too: at `YCbCr(0, 128, 0)` the red
component is `1.402·(0 - 128) = -179.456 < 0`, so `num::cast` fails and the
`unwrap` aborts — the integer-typed conversions are not total. -/
theorem c6_integer_to_rgb_panics_on_negative :
    BareYCbCrU8.to_rgb ⟨0, 128, 0⟩ OutOfGamutMode.Preserve = none ∧
    BareYCbCrU8.to_rgb ⟨0, 128, 0⟩ OutOfGamutMode.Clip = none ∧
    try_from_color_u8 ⟨0, 128, 0⟩ = none := by
  have h1 : u8_inverse_shifted ⟨0, 128, 0⟩ = (-22432/125, 57128/625, 0) := by
    simp only [u8_inverse_shifted, Matrix3.transform_vector,
      JpegModel.inverse_transform, shift_u8, standard_shift_int, Prod.mk.injEq]
    norm_num
  have h2 : num_cast_f64_u8 (-22432/125) = none := by
    simp only [num_cast_f64_u8]
    rw [if_neg]
    norm_num
  have hr : ∀ mode, BareYCbCrU8.to_rgb ⟨0, 128, 0⟩ mode = none := by
    intro mode
    simp only [BareYCbCrU8.to_rgb, h1, h2, Option.none_bind]
  exact ⟨hr _, hr _, by simp only [try_from_color_u8, hr, Option.none_bind]⟩

/-- **C10**: `invert`, `normalize` and `lerp` on a model-carrying `YCbCr`
rebuild the color with `self.model` unchanged — only the channel values can
differ. -/
theorem c10_ycbcr_ops_preserve_model :
    ∀ (M : Type) (c c2 : YCbCrC M) (pos : ℚ),
      (YCbCrC.invert c).model = c.model ∧
      (YCbCrC.normalize c).model = c.model ∧
      (YCbCrC.lerp c c2 pos).model = c.model :=
  fun _ _ _ _ => ⟨rfl, rfl, rfl⟩

end RustColor
